import Mathlib

/-!
Shallow embedding of `src/olmocr/bench/benchmark.py` (the olmocr bench
rule validation and evaluation engine).

Modelling conventions:
* Python floats are modelled as `ℚ`; `round` is modelled by `pyRound`
  (round half to even, as Python's built-in `round`).
* JSON lines are modelled by `Line`: a blank line, a line that fails JSON
  parsing (carrying the parser message), or a parsed record `RecordData`
  whose optional fields model presence or absence of the JSON keys the
  program reads.  Keys the program never reads are irrelevant and omitted.
* The external capabilities (rapidfuzz `fuzz.partial_ratio`, fuzzysearch
  `find_near_matches`, and the filesystem reads) are abstracted as an
  explicit environment `Env`, per the narrow capability interface the code
  consumes.  `similarity` models `fuzz.partial_ratio` on its 0..100 scale.
* Python exceptions are modelled by `Except String`: `run_rule` returns
  `.error` exactly where the Python function raises (KeyError/TypeError on
  missing fields, NotImplementedError on an unknown type), and the
  aggregator's `try/except` is the explicit `.error` handling in
  `runRepeats`.
* Apostrophes inside the Python message strings are written `\x27`.
-/

/-- Python `round` (round half to even) on a rational. -/
def pyRound (q : ℚ) : Int :=
  let fl : Int := Rat.floor q
  let frac : ℚ := q - (fl : ℚ)
  if frac < 1/2 then fl
  else if 1/2 < frac then fl + 1
  else if fl % 2 = 0 then fl else fl + 1

/-- Left-pad a natural below 1000 to three digits, for the `.3f` format. -/
def pad3 (f : Nat) : String :=
  if f < 10 then "00" ++ toString f
  else if f < 100 then "0" ++ toString f
  else toString f

/-- Python `f"{q:.3f}"` formatting of a (nonnegative) rational. -/
def format3 (q : ℚ) : String :=
  let n := pyRound (q * 1000)
  toString (n / 1000) ++ "." ++ pad3 ((n % 1000).toNat)

/-- Python `os.path.join(a, b)` for a relative second component. -/
def pathJoin (a b : String) : String := a ++ "/" ++ b

/-- Python `os.path.basename`: the part after the last slash. -/
def pyBasename (p : String) : String :=
  String.mk ((p.data.reverse.takeWhile (fun c => c ≠ '/')).reverse)

/-- Python `os.path.splitext(p)[0]` for a basename: drop the extension at
the last dot, unless every character before that dot is itself a dot. -/
def splitextStem (p : String) : String :=
  let cs := p.data
  match (cs.enum.filter (fun x => x.2 = '.')).getLast? with
  | none => p
  | some ip => if (cs.take ip.1).all (fun c => c = '.') then p else String.mk (cs.take ip.1)

/-- Display of `rule.get("id")` in messages: Python prints `None` for a
missing key. -/
def optDisp : Option String → String
  | some s => s
  | none => "None"

/-- One parsed JSONL record, holding exactly the keys `benchmark.py` reads.
A `none` field models the key being absent from the JSON object. -/
structure RecordData where
  pdf : Option String := none
  id : Option String := none
  type : Option String := none
  text : Option String := none
  before : Option String := none
  after : Option String := none
  threshold : Option ℚ := none
deriving DecidableEq

/-- One input line of a rule `.jsonl` file. -/
inductive Line where
  | blank : Line
  | malformed (err : String) : Line
  | record (data : RecordData) : Line
deriving DecidableEq

/-- A near-match location as returned by fuzzysearch `find_near_matches`;
only the start offset is consulted by the program. -/
structure NearMatch where
  start : Nat
  stop : Nat
deriving DecidableEq

/-- The external capabilities `benchmark.py` consumes: the rapidfuzz
partial-ratio similarity (0..100 scale), the fuzzysearch near-match search
under an edit-distance bound, and filesystem reads (a read failure is an
`.error` carrying the exception text). -/
structure Env where
  similarity : String → String → ℚ
  find_near_matches : String → String → Int → List NearMatch
  readFile : String → Except String String

/-- Rendering of a record used where Python interpolates the whole dict. -/
def reprRecord (d : RecordData) : String :=
  "\x7bpdf=" ++ optDisp d.pdf ++ ", id=" ++ optDisp d.id ++ ", type=" ++ optDisp d.type ++ "\x7d"

def invalidJsonMsg (path : String) (n : Nat) (e : String) : String :=
  "Invalid JSON on line " ++ toString n ++ " in " ++ path ++ ": " ++ e

def missingReqMsg (path : String) (n : Nat) (d : RecordData) : String :=
  "Missing required fields in line " ++ toString n ++ " of " ++ path ++ ": " ++ reprRecord d

def dupMsg (path : String) (rule_id : String) : String :=
  "Duplicate rule " ++ rule_id ++ " in " ++ path

def missingPdfMsg (pdf rule_id path : String) (n : Nat) : String :=
  "Missing pdf " ++ pdf ++ " referenced by " ++ rule_id ++ " in " ++ path ++ " line " ++ toString n

def textReqMsg (rule_type path : String) (n : Nat) : String :=
  "\x27text\x27 field required for rule type \x27" ++ rule_type ++ "\x27 in " ++ path ++ " line " ++ toString n

def beforeReqMsg (path : String) (n : Nat) : String :=
  "\x27before\x27 field required for rule type \x27order\x27 in " ++ path ++ " line " ++ toString n

def beforeShortMsg (path : String) (n : Nat) : String :=
  "\x27before\x27 field too short in " ++ path ++ " line " ++ toString n

def afterReqMsg (path : String) (n : Nat) : String :=
  "\x27after\x27 field required for rule type \x27order\x27 in " ++ path ++ " line " ++ toString n

def afterShortMsg (path : String) (n : Nat) : String :=
  "\x27after\x27 field too short in " ++ path ++ " line " ++ toString n

def unknownTypeMsg (rule_type path : String) (n : Nat) : String :=
  "Unknown rule type \x27" ++ rule_type ++ "\x27 in " ++ path ++ " line " ++ toString n

/-- Result of processing one line of a rule file: skip it (blank line),
fail the whole load with a message, or keep the record, remembering its id. -/
inductive StepRes where
  | skip : StepRes
  | fail (msg : String) : StepRes
  | keep (d : RecordData) (rule_id : String) : StepRes
deriving DecidableEq

/-- The per-line checks of `validate_jsonl_file` (lines 36-76 of
`benchmark.py`), in source order: JSON parse, required keys `pdf`/`id`/
`type`, duplicate id against the ids seen so far, pdf referential check,
then the type-specific checks. -/
def lineStep (path : String) (bn : List String) (n : Nat) (seen : List String) : Line → StepRes
  | .blank => .skip
  | .malformed e => .fail (invalidJsonMsg path n e)
  | .record d =>
    match d.pdf, d.id, d.type with
    | some pdf, some rule_id, some rule_type =>
      if rule_id ∈ seen then .fail (dupMsg path rule_id)
      else if pdf ∉ bn then .fail (missingPdfMsg pdf rule_id path n)
      else if rule_type = "present" ∨ rule_type = "absent" then
        match d.text with
        | none => .fail (textReqMsg rule_type path n)
        | some _ => .keep d rule_id
      else if rule_type = "order" then
        match d.before with
        | none => .fail (beforeReqMsg path n)
        | some b =>
          if b.length < 10 then .fail (beforeShortMsg path n)
          else
            match d.after with
            | none => .fail (afterReqMsg path n)
            | some a =>
              if a.length < 10 then .fail (afterShortMsg path n)
              else .keep d rule_id
      else .fail (unknownTypeMsg rule_type path n)
    | _, _, _ => .fail (missingReqMsg path n d)

/-- The line loop of `validate_jsonl_file`: `n` is the 1-based line number
(blank lines are counted), `seen` the accumulated rule ids, `acc` the rules
kept so far. -/
def validateAux (path : String) (bn : List String) :
    Nat → List String → List RecordData → List Line → Except String (List RecordData)
  | _, _, acc, [] => .ok acc
  | n, seen, acc, l :: rest =>
    match lineStep path bn n seen l with
    | .skip => validateAux path bn (n + 1) seen acc rest
    | .fail m => .error m
    | .keep d i => validateAux path bn (n + 1) (i :: seen) (acc ++ [d]) rest

/-- `validate_jsonl_file(jsonl_path, all_pdf_files)`: validate the lines of
one rule file against the basenames of the known pdf files. -/
def validate_jsonl_file (jsonl_path : String) (all_pdf_files : List String)
    (lines : List Line) : Except String (List RecordData) :=
  validateAux jsonl_path (all_pdf_files.map pyBasename) 1 [] [] lines

/-- The rule-loading loop of `main` (lines 232-240): validate each file in
turn and concatenate the results; the first validation error aborts the run.
There is no duplicate-id check across files. -/
def loadAllRules (all_pdf_files : List String) :
    List (String × List Line) → Except String (List RecordData)
  | [] => .ok []
  | (path, lines) :: rest =>
    match validate_jsonl_file path all_pdf_files lines with
    | .error e => .error e
    | .ok rules =>
      match loadAllRules all_pdf_files rest with
      | .error e => .error e
      | .ok more => .ok (rules ++ more)

def presAbsFailMsg (q : String) (t r : ℚ) : String :=
  "Expected \x27" ++ q.take 40 ++ "...\x27 with threshold " ++ toString t ++
    " but best match ratio was " ++ format3 r

def beforeNotFoundMsg (b : String) (dist : Int) : String :=
  "\x27before\x27 search text \x27" ++ b.take 40 ++ "...\x27 not found with max_l_dist " ++ toString dist

def afterNotFoundMsg (a : String) (dist : Int) : String :=
  "\x27after\x27 search text \x27" ++ a.take 40 ++ "...\x27 not found with max_l_dist " ++ toString dist

def orderFailMsg (b a : String) : String :=
  "Could not find a location where \x27" ++ b.take 40 ++ "...\x27 appears before \x27" ++
    a.take 40 ++ "...\x27."

def keyErrType : String := "\x27type\x27"
def keyErrText : String := "\x27text\x27"
def keyErrPdf : String := "\x27pdf\x27"
def typeErrNone : String := "object of type \x27NoneType\x27 has no len()"

def notImplementedMsg (rule_type : String) : String :=
  "Rule type \x27" ++ rule_type ++ "\x27 is not implemented."

/-- `run_rule(rule, md_file_path)` (lines 80-124).  A read failure is an
ordinary `(False, explanation)` result; a `.error` models an exception
escaping `run_rule` (missing dict key, missing order fields, or the
`NotImplementedError` for an unknown type). -/
def run_rule (env : Env) (rule : RecordData) (md_file_path : String) :
    Except String (Bool × String) :=
  match Env.readFile env md_file_path with
  | .error e => .ok (false, "Error reading " ++ md_file_path ++ ": " ++ e)
  | .ok md_content =>
    match rule.type with
    | none => .error keyErrType
    | some rule_type =>
      if rule_type = "present" ∨ rule_type = "absent" then
        match rule.text with
        | none => .error keyErrText
        | some reference_query =>
          let threshold := rule.threshold.getD 1
          let best_ratio := Env.similarity env reference_query md_content / 100
          if rule_type = "present" then
            if threshold ≤ best_ratio then .ok (true, "")
            else .ok (false, presAbsFailMsg reference_query threshold best_ratio)
          else
            if best_ratio < threshold then .ok (true, "")
            else .ok (false, presAbsFailMsg reference_query threshold best_ratio)
      else if rule_type = "order" then
        match rule.before, rule.after with
        | some before, some after =>
          let threshold := rule.threshold.getD 1
          let max_l_dist := pyRound ((1 - threshold) * (before.length : ℚ))
          let before_matches := Env.find_near_matches env before md_content max_l_dist
          let after_matches := Env.find_near_matches env after md_content max_l_dist
          if before_matches = [] then .ok (false, beforeNotFoundMsg before max_l_dist)
          else if after_matches = [] then .ok (false, afterNotFoundMsg after max_l_dist)
          else if before_matches.any (fun bm => after_matches.any (fun am => bm.start < am.start))
          then .ok (true, "")
          else .ok (false, orderFailMsg before after)
        | _, _ => .error typeErrNone
      else .error (notImplementedMsg rule_type)

/-- Whether a `run_rule` outcome is a pass. -/
def passed : Except String (Bool × String) → Bool
  | .ok (true, _) => true
  | _ => false

def missingMdMsg (candidate_name pdf_name md_base : String) : String :=
  "Candidate \x27" ++ candidate_name ++ "\x27 is missing MD repeats for " ++ pdf_name ++
    " (expected files matching " ++ md_base ++ "_*.md)."

/-- Step 1 of `evaluate_candidate` (lines 148-156): per pdf, glob for its
repeat files; a pdf with none yields a candidate error, otherwise the pdf is
mapped to its files. -/
def discoverRepeats (glob : String → List String) (candidate_folder : String) :
    List String → List String × List (String × List String)
  | [] => ([], [])
  | pdf_name :: rest =>
    let md_base := splitextStem pdf_name
    let md_files := glob (pathJoin candidate_folder (md_base ++ "_*.md"))
    let r := discoverRepeats glob candidate_folder rest
    if md_files = [] then
      (missingMdMsg (pyBasename candidate_folder) pdf_name md_base :: r.1, r.2)
    else (r.1, (pdf_name, md_files) :: r.2)

/-- `pdf_to_md_files.get(pdf_name, [])`: the dict built by step 1 keyed by
pdf name (first binding wins; step 1 inserts each key at most once per
distinct pdf name). -/
def assocGet : List (String × List String) → String → List String
  | [], _ => []
  | kv :: rest, k => if kv.1 = k then kv.2 else assocGet rest k

def runErrMsg (rid : Option String) (md_path e : String) : String :=
  "Error running rule " ++ optDisp rid ++ " on " ++ md_path ++ ": " ++ e

def ruleFailMsg (rid : Option String) (md_base : String) (avg : ℚ) (passes reps : Nat)
    (expls : List String) : String :=
  "Rule " ++ optDisp rid ++ " on " ++ md_base ++ " average pass ratio: " ++ format3 avg ++
    " (" ++ toString passes ++ "/" ++ toString reps ++ " repeats passed). Example explanation: " ++
    expls.headD "No explanation"

/-- Tallies of the inner repeat loop of `evaluate_candidate`
(lines 173-186). -/
structure RepeatStats where
  passes : Nat
  repeats : Nat
  explanations : List String
  errors : List String
deriving DecidableEq

/-- The repeat loop: each md file counts as one repeat; a failing repeat
contributes its explanation; an exception from `run_rule` is caught, adds a
candidate-level error and its text as an explanation, and still counts as a
(failed) repeat. -/
def runRepeats (env : Env) (rule : RecordData) : List String → RepeatStats
  | [] => ⟨0, 0, [], []⟩
  | md_path :: rest =>
    let s := runRepeats env rule rest
    match run_rule env rule md_path with
    | .ok (true, _) => ⟨s.passes + 1, s.repeats + 1, s.explanations, s.errors⟩
    | .ok (false, explanation) => ⟨s.passes, s.repeats + 1, explanation :: s.explanations, s.errors⟩
    | .error e => ⟨s.passes, s.repeats + 1, e :: s.explanations, runErrMsg rule.id md_path e :: s.errors⟩

/-- Touch a key of the rule-type breakdown dict (lines 166-167): first
occurrence inserts an empty list at the end, in dict insertion order. -/
def bdTouch (bd : List (String × List ℚ)) (k : String) : List (String × List ℚ) :=
  if bd.any (fun p => p.1 = k) then bd else bd ++ [(k, [])]

/-- Append a score to a key of the breakdown dict (line 194). -/
def bdAppend (bd : List (String × List ℚ)) (k : String) (v : ℚ) : List (String × List ℚ) :=
  bd.map (fun p => if p.1 = k then (p.1, p.2 ++ [v]) else p)

/-- The rule loop of `evaluate_candidate` (lines 164-194), carrying the
running total, the breakdown dict, the failure list and the candidate
errors.  A missing `type` or `pdf` key is a KeyError raised outside the
per-repeat `try`, so it aborts the whole call (`.error`). -/
def evalRulesAux (env : Env) (pdf_to_md : List (String × List String)) :
    ℚ → List (String × List ℚ) → List String → List String → List RecordData →
    Except String (ℚ × List (String × List ℚ) × List String × List String)
  | total, bd, fails, errs, [] => .ok (total, bd, fails, errs)
  | total, bd, fails, errs, rule :: rest =>
    match rule.type with
    | none => .error keyErrType
    | some rule_type =>
      let bd1 := bdTouch bd rule_type
      match rule.pdf with
      | none => .error keyErrPdf
      | some pdf_name =>
        let md_base := splitextStem pdf_name
        let md_files := assocGet pdf_to_md pdf_name
        if md_files = [] then evalRulesAux env pdf_to_md total bd1 fails errs rest
        else
          let s := runRepeats env rule md_files
          let rule_avg : ℚ := if 0 < s.repeats then (s.passes : ℚ) / (s.repeats : ℚ) else 0
          let fails1 :=
            if rule_avg < 1 then
              fails ++ [ruleFailMsg rule.id md_base rule_avg s.passes s.repeats s.explanations]
            else fails
          evalRulesAux env pdf_to_md (total + rule_avg) (bdAppend bd1 rule_type rule_avg)
            fails1 (errs ++ s.errors) rest

/-- The evaluation result tuple of `evaluate_candidate`. -/
structure EvalResult where
  overall_score : ℚ
  total_rules : Nat
  candidate_errors : List String
  rule_failures : List String
  rule_type_breakdown : List (String × List ℚ)
deriving DecidableEq

/-- `evaluate_candidate(candidate_folder, all_rules, pdf_basenames)`
(lines 127-197): discover repeats, short-circuit on any missing document,
otherwise run every rule over its repeats and average. -/
def evaluate_candidate (env : Env) (glob : String → List String) (candidate_folder : String)
    (all_rules : List RecordData) (pdf_basenames : List String) : Except String EvalResult :=
  let discovered := discoverRepeats glob candidate_folder pdf_basenames
  if discovered.1 = [] then
    match evalRulesAux env discovered.2 0 [] [] [] all_rules with
    | .error e => .error e
    | .ok (total, bd, fails, errs) =>
      .ok ⟨if all_rules = [] then 0 else total / (all_rules.length : ℚ),
           all_rules.length, errs, fails, bd⟩
  else .ok ⟨0, all_rules.length, discovered.1, [], []⟩

/-- Helper: `s ++ "" = s` for strings. -/
lemma string_append_empty (s : String) : s ++ "" = s := by
  cases s
  simp [String.instAppend, String.append]

/-- Unfolding of `run_rule` on a readable artifact for a `present` rule. -/
lemma run_rule_present (env : Env) (rule : RecordData) (p ct q : String)
    (hread : Env.readFile env p = .ok ct) (htype : rule.type = some "present")
    (htext : rule.text = some q) :
    run_rule env rule p =
      (if rule.threshold.getD 1 ≤ Env.similarity env q ct / 100 then .ok (true, "")
       else .ok (false, presAbsFailMsg q (rule.threshold.getD 1) (Env.similarity env q ct / 100))) := by
  simp [run_rule, hread, htype, htext]

/-- Unfolding of `run_rule` on a readable artifact for an `absent` rule. -/
lemma run_rule_absent (env : Env) (rule : RecordData) (p ct q : String)
    (hread : Env.readFile env p = .ok ct) (htype : rule.type = some "absent")
    (htext : rule.text = some q) :
    run_rule env rule p =
      (if Env.similarity env q ct / 100 < rule.threshold.getD 1 then .ok (true, "")
       else .ok (false, presAbsFailMsg q (rule.threshold.getD 1) (Env.similarity env q ct / 100))) := by
  simp [run_rule, hread, htype, htext]

/-- C3: for a fixed rule text, artifact and threshold, a `present` rule
passes iff the normalized partial-match ratio is at least the threshold, an
`absent` rule passes iff that ratio is below the threshold, exactly one of
the two passes, and at the boundary (ratio equal to the threshold) `present`
passes while `absent` fails. -/
theorem present_absent_complementary (env : Env) (d : RecordData) (p ct q : String)
    (hread : Env.readFile env p = .ok ct) (htext : d.text = some q) :
    (passed (run_rule env { d with type := some "present" } p) = true ↔
      d.threshold.getD 1 ≤ Env.similarity env q ct / 100) ∧
    (passed (run_rule env { d with type := some "absent" } p) = true ↔
      Env.similarity env q ct / 100 < d.threshold.getD 1) ∧
    (passed (run_rule env { d with type := some "present" } p)
      = !(passed (run_rule env { d with type := some "absent" } p))) ∧
    (Env.similarity env q ct / 100 = d.threshold.getD 1 →
      passed (run_rule env { d with type := some "present" } p) = true ∧
      passed (run_rule env { d with type := some "absent" } p) = false) := by
  have hp := run_rule_present env { d with type := some "present" } p ct q hread rfl htext
  have ha := run_rule_absent env { d with type := some "absent" } p ct q hread rfl htext
  rw [hp, ha]
  rcases le_or_lt (d.threshold.getD 1) (Env.similarity env q ct / 100) with h | h
  · simp only [if_pos h, if_neg (not_lt.mpr h), passed]
    simp [h, not_lt.mpr h]
  · simp only [if_neg (not_le.mpr h), if_pos h, passed]
    simp [h, not_le.mpr h]
    intro heq
    exact absurd (le_of_eq heq.symm) (not_le.mpr h)

def envC3 : Env :=
  { similarity := fun _ _ => 80,
    find_near_matches := fun _ _ _ => [],
    readFile := fun _ => .ok "the artifact text" }

def recC3 : RecordData := { text := some "hello", threshold := some (4/5) }

/-- Witness for C3 at a concrete environment where the ratio equals the
threshold exactly. -/
theorem present_absent_complementary_witness :
    Env.readFile envC3 "x.md" = .ok "the artifact text" ∧
    recC3.text = some "hello" ∧
    (passed (run_rule envC3 { recC3 with type := some "present" } "x.md") = true ∧
     passed (run_rule envC3 { recC3 with type := some "absent" } "x.md") = false) := by
  refine ⟨rfl, rfl, ?_⟩
  exact (present_absent_complementary envC3 recC3 "x.md" "the artifact text" "hello" rfl rfl).2.2.2
    (by norm_num [envC3, recC3])

/-- The order-rule edit-distance budget as §4.2 of the spec words it:
computed from the threshold and the length of `before` only. -/
def spec_budget (threshold : ℚ) (before : String) : Int :=
  pyRound ((1 - threshold) * (before.length : ℚ))

/-- The order-rule decision given both near-match searches, the same budget
`D` feeding both. -/
def orderOutcome (b a : String) (D : Int) (bms ams : List NearMatch) :
    Except String (Bool × String) :=
  if bms = [] then .ok (false, beforeNotFoundMsg b D)
  else if ams = [] then .ok (false, afterNotFoundMsg a D)
  else if bms.any (fun bm => ams.any (fun am => bm.start < am.start)) then .ok (true, "")
  else .ok (false, orderFailMsg b a)

/-- Unfolding of `run_rule` on a readable artifact for an `order` rule. -/
lemma run_rule_order (env : Env) (rule : RecordData) (p ct b a : String)
    (hread : Env.readFile env p = .ok ct) (htype : rule.type = some "order")
    (hb : rule.before = some b) (ha : rule.after = some a) :
    run_rule env rule p =
      orderOutcome b a (spec_budget (rule.threshold.getD 1) b)
        (Env.find_near_matches env b ct (spec_budget (rule.threshold.getD 1) b))
        (Env.find_near_matches env a ct (spec_budget (rule.threshold.getD 1) b)) := by
  simp [run_rule, hread, htype, hb, ha, orderOutcome, spec_budget]

/-- C6: for an `order` rule the edit-distance budget is
`round((1 - threshold) * length(before))`, computed from `before` only, and
this single budget is passed to the near-match searches of both `before`
and `after`. -/
theorem order_budget_from_before_only (env : Env) (d : RecordData) (p ct b a : String)
    (hread : Env.readFile env p = .ok ct) (htype : d.type = some "order")
    (hb : d.before = some b) (ha : d.after = some a) :
    spec_budget (d.threshold.getD 1) b = pyRound ((1 - d.threshold.getD 1) * (b.length : ℚ)) ∧
    run_rule env d p =
      orderOutcome b a (spec_budget (d.threshold.getD 1) b)
        (Env.find_near_matches env b ct (spec_budget (d.threshold.getD 1) b))
        (Env.find_near_matches env a ct (spec_budget (d.threshold.getD 1) b)) :=
  ⟨rfl, run_rule_order env d p ct b a hread htype hb ha⟩

def envC6 : Env :=
  { similarity := fun _ _ => 0,
    find_near_matches := fun _ _ _ => [⟨0, 5⟩],
    readFile := fun _ => .ok "text" }

def recC6 : RecordData :=
  { type := some "order", before := some "aaaaaaaaaaaaaaaaaaaa",
    after := some "bbbbbbbbbbbbbbbbbbbb", threshold := some (4/5) }

/-- Witness for C6: with threshold `0.8` and a `before` of length 20 the
budget is `round(0.2 * 20) = 4`. -/
theorem order_budget_from_before_only_witness :
    spec_budget (4/5) "aaaaaaaaaaaaaaaaaaaa" = 4 ∧
    run_rule envC6 recC6 "x.md" =
      orderOutcome "aaaaaaaaaaaaaaaaaaaa" "bbbbbbbbbbbbbbbbbbbb" 4
        (Env.find_near_matches envC6 "aaaaaaaaaaaaaaaaaaaa" "text" 4)
        (Env.find_near_matches envC6 "bbbbbbbbbbbbbbbbbbbb" "text" 4) := by
  have hlen : ("aaaaaaaaaaaaaaaaaaaa" : String).length = 20 := rfl
  have hbud : spec_budget (4/5) "aaaaaaaaaaaaaaaaaaaa" = 4 := by
    unfold spec_budget
    rw [hlen]
    norm_num [pyRound, Rat.floor]
  have h := (order_budget_from_before_only envC6 recC6 "x.md" "text"
    "aaaaaaaaaaaaaaaaaaaa" "bbbbbbbbbbbbbbbbbbbb" rfl rfl rfl rfl).2
  rw [show (recC6.threshold).getD 1 = 4/5 from rfl] at h
  rw [hbud] at h
  exact ⟨hbud, h⟩

/-- C5: an `order` rule with near-match occurrences of both texts passes iff
some pair from the cross product has the `before` occurrence starting
strictly before the `after` occurrence; zero occurrences of `before`
(checked first) or of `after` fail with an explanation naming the missing
text (its 40-character preview) and the edit-distance budget. -/
theorem order_rule_semantics (env : Env) (d : RecordData) (p ct b a : String)
    (hread : Env.readFile env p = .ok ct) (htype : d.type = some "order")
    (hb : d.before = some b) (ha : d.after = some a) :
    (Env.find_near_matches env b ct (spec_budget (d.threshold.getD 1) b) = [] →
      run_rule env d p = .ok (false, beforeNotFoundMsg b (spec_budget (d.threshold.getD 1) b))) ∧
    (Env.find_near_matches env b ct (spec_budget (d.threshold.getD 1) b) ≠ [] →
     Env.find_near_matches env a ct (spec_budget (d.threshold.getD 1) b) = [] →
      run_rule env d p = .ok (false, afterNotFoundMsg a (spec_budget (d.threshold.getD 1) b))) ∧
    (Env.find_near_matches env b ct (spec_budget (d.threshold.getD 1) b) ≠ [] →
     Env.find_near_matches env a ct (spec_budget (d.threshold.getD 1) b) ≠ [] →
      (run_rule env d p = .ok (true, "") ↔
        ∃ bm ∈ Env.find_near_matches env b ct (spec_budget (d.threshold.getD 1) b),
          ∃ am ∈ Env.find_near_matches env a ct (spec_budget (d.threshold.getD 1) b),
            bm.start < am.start)) ∧
    (∀ s D, beforeNotFoundMsg s D =
      "\x27before\x27 search text \x27" ++ s.take 40 ++ "...\x27 not found with max_l_dist " ++ toString D) ∧
    (∀ s D, afterNotFoundMsg s D =
      "\x27after\x27 search text \x27" ++ s.take 40 ++ "...\x27 not found with max_l_dist " ++ toString D) := by
  rw [run_rule_order env d p ct b a hread htype hb ha]
  refine ⟨fun hbe => ?_, fun hbne hae => ?_, fun hbne hane => ?_, fun _ _ => rfl, fun _ _ => rfl⟩
  · simp [orderOutcome, hbe]
  · simp [orderOutcome, hbne, hae]
  · simp only [orderOutcome, if_neg hbne, if_neg hane]
    by_cases hany : (Env.find_near_matches env b ct (spec_budget (d.threshold.getD 1) b)).any
        (fun bm => (Env.find_near_matches env a ct (spec_budget (d.threshold.getD 1) b)).any
          (fun am => bm.start < am.start)) = true
    · rw [if_pos hany]
      simp only [List.any_eq_true, decide_eq_true_eq] at hany
      simpa using hany
    · rw [if_neg hany]
      simp only [List.any_eq_true, decide_eq_true_eq] at hany
      constructor
      · intro hcontra
        exact absurd (Except.ok.inj hcontra) (by simp)
      · intro hex
        exact absurd (by simpa using hex) hany

def envC5 : Env :=
  { similarity := fun _ _ => 0,
    find_near_matches := fun pat _ _ => if pat = "aaaaaaaaaaaaaaaaaaaa" then [⟨2, 8⟩] else [⟨7, 9⟩],
    readFile := fun _ => .ok "text" }

/-- Witness for C5: one occurrence of each text, `before` starting at 2 and
`after` at 7, so the rule passes. -/
theorem order_rule_semantics_witness :
    run_rule envC5 recC6 "x.md" = .ok (true, "") := by
  have h := (order_rule_semantics envC5 recC6 "x.md" "text"
    "aaaaaaaaaaaaaaaaaaaa" "bbbbbbbbbbbbbbbbbbbb" rfl rfl rfl rfl).2.2.1
    (by simp [envC5]) (by simp [envC5])
  rw [h]
  refine ⟨⟨2, 8⟩, by simp [envC5], ⟨7, 9⟩, by simp [envC5], by decide⟩

/-- The md files a rule on pdf `p` is evaluated against, phrased directly in
terms of the glob results (step 1 maps exactly the pdfs of the document set
with a nonempty glob). -/
def mdFilesFor (glob : String → List String) (folder : String) (bn : List String)
    (p : String) : List String :=
  if p ∈ bn then glob (pathJoin folder (splitextStem p ++ "_*.md")) else []

/-- The average of one rule: pass count over repeats evaluated, defensively
0 when no repeat was evaluated (in particular for a rule skipped because its
pdf has no entry in the repeats map). -/
def avgWith (env : Env) (filesOf : String → List String) (r : RecordData) : ℚ :=
  match r.pdf with
  | none => 0
  | some p =>
    let md_files := filesOf p
    if md_files = [] then 0
    else
      let s := runRepeats env r md_files
      if 0 < s.repeats then (s.passes : ℚ) / (s.repeats : ℚ) else 0

/-- The failure entry one rule contributes, if any: present exactly when its
average is strictly below 1. -/
def failEntryWith (env : Env) (filesOf : String → List String) (r : RecordData) :
    Option String :=
  match r.pdf with
  | none => none
  | some p =>
    let md_files := filesOf p
    if md_files = [] then none
    else
      let s := runRepeats env r md_files
      let rule_avg : ℚ := if 0 < s.repeats then (s.passes : ℚ) / (s.repeats : ℚ) else 0
      if rule_avg < 1 then
        some (ruleFailMsg r.id (splitextStem p) rule_avg s.passes s.repeats s.explanations)
      else none

/-- The candidate-level errors one rule contributes (caught exceptions of
its repeats). -/
def errsWith (env : Env) (filesOf : String → List String) (r : RecordData) : List String :=
  match r.pdf with
  | none => []
  | some p =>
    let md_files := filesOf p
    if md_files = [] then [] else (runRepeats env r md_files).errors

/-- Characterization of the rule loop when every rule carries its `type` and
`pdf` keys: it succeeds, the total is the sum of the rule averages, the
failure list collects exactly the rules with average below 1, and the error
list collects all caught per-repeat exceptions. -/
lemma evalRulesAux_ok (env : Env) (assoc : List (String × List String)) :
    ∀ (rules : List RecordData), (∀ r ∈ rules, r.type.isSome ∧ r.pdf.isSome) →
    ∀ (total : ℚ) (bd : List (String × List ℚ)) (fails errs : List String),
    ∃ bd', evalRulesAux env assoc total bd fails errs rules =
      .ok (total + (rules.map (avgWith env (assocGet assoc))).sum,
           bd',
           fails ++ rules.filterMap (failEntryWith env (assocGet assoc)),
           errs ++ (rules.map (errsWith env (assocGet assoc))).flatten) := by
  intro rules
  induction rules with
  | nil =>
    intro _ total bd fails errs
    exact ⟨bd, by simp [evalRulesAux]⟩
  | cons rule rest ih =>
    intro hwf total bd fails errs
    obtain ⟨htype, hpdf⟩ := hwf rule (by simp)
    obtain ⟨rt, hrt⟩ := Option.isSome_iff_exists.mp htype
    obtain ⟨p, hp⟩ := Option.isSome_iff_exists.mp hpdf
    have hrest : ∀ r ∈ rest, r.type.isSome ∧ r.pdf.isSome := fun r hr => hwf r (by simp [hr])
    by_cases hfe : assocGet assoc p = []
    · obtain ⟨bd', hrec⟩ := ih hrest total (bdTouch bd rt) fails errs
      refine ⟨bd', ?_⟩
      rw [show evalRulesAux env assoc total bd fails errs (rule :: rest) =
            evalRulesAux env assoc total (bdTouch bd rt) fails errs rest by
          simp [evalRulesAux, hrt, hp, hfe]]
      rw [hrec]
      simp [avgWith, hp, hfe, errsWith, failEntryWith]
    · set s := runRepeats env rule (assocGet assoc p) with hs
      set rule_avg : ℚ := if 0 < s.repeats then (s.passes : ℚ) / (s.repeats : ℚ) else 0 with havg
      set fails1 := (if rule_avg < 1 then
          fails ++ [ruleFailMsg rule.id (splitextStem p) rule_avg s.passes s.repeats s.explanations]
        else fails) with hfails1
      obtain ⟨bd', hrec⟩ := ih hrest (total + rule_avg) (bdAppend (bdTouch bd rt) rt rule_avg)
        fails1 (errs ++ s.errors)
      refine ⟨bd', ?_⟩
      rw [show evalRulesAux env assoc total bd fails errs (rule :: rest) =
            evalRulesAux env assoc (total + rule_avg) (bdAppend (bdTouch bd rt) rt rule_avg)
              fails1 (errs ++ s.errors) rest by
          simp [evalRulesAux, hrt, hp, hfe, ← hs, ← havg, ← hfails1]]
      rw [hrec]
      have h1 : avgWith env (assocGet assoc) rule = rule_avg := by
        simp [avgWith, hp, hfe, ← hs, ← havg]
      have h2 : failEntryWith env (assocGet assoc) rule =
          (if rule_avg < 1 then
            some (ruleFailMsg rule.id (splitextStem p) rule_avg s.passes s.repeats s.explanations)
          else none) := by
        simp [failEntryWith, hp, hfe, ← hs, ← havg]
      have h3 : errsWith env (assocGet assoc) rule = s.errors := by
        simp [errsWith, hp, hfe, ← hs]
      simp only [List.map_cons, List.sum_cons, List.filterMap_cons, List.flatten, h1, h2, h3]
      rw [hfails1]
      by_cases hlt : rule_avg < 1
      · simp [hlt, add_assoc, add_comm rule_avg]
      · simp [hlt, add_assoc, add_comm rule_avg]

/-- Step 1 yields no candidate error exactly when every pdf of the document
set has at least one repeat file. -/
lemma discover_errs_nil_iff (glob : String → List String) (folder : String) :
    ∀ bn : List String,
      (discoverRepeats glob folder bn).1 = [] ↔
        ∀ p ∈ bn, glob (pathJoin folder (splitextStem p ++ "_*.md")) ≠ [] := by
  intro bn
  induction bn with
  | nil => simp [discoverRepeats]
  | cons p rest ih =>
    by_cases h : glob (pathJoin folder (splitextStem p ++ "_*.md")) = []
    · simp [discoverRepeats, h]
    · simp [discoverRepeats, h, ih]

/-- When every pdf has repeats, looking a pdf up in the discovered map is
the direct glob lookup guarded by membership in the document set. -/
lemma assocGet_discover (glob : String → List String) (folder : String) :
    ∀ bn : List String,
      (∀ p ∈ bn, glob (pathJoin folder (splitextStem p ++ "_*.md")) ≠ []) →
      ∀ q, assocGet (discoverRepeats glob folder bn).2 q = mdFilesFor glob folder bn q := by
  intro bn
  induction bn with
  | nil => intro _ q; simp [discoverRepeats, assocGet, mdFilesFor]
  | cons p rest ih =>
    intro h q
    have hp := h p (by simp)
    have hrest : ∀ r ∈ rest, glob (pathJoin folder (splitextStem r ++ "_*.md")) ≠ [] :=
      fun r hr => h r (List.mem_cons_of_mem p hr)
    by_cases hq : p = q
    · subst hq
      simp [discoverRepeats, if_neg hp, assocGet, mdFilesFor]
    · simp only [discoverRepeats, if_neg hp, assocGet, if_neg hq]
      rw [ih hrest q]
      simp only [mdFilesFor, List.mem_cons]
      have : (q = p ∨ q ∈ rest) ↔ q ∈ rest := by
        constructor
        · rintro (hqp | hmem)
          · exact absurd hqp.symm hq
          · exact hmem
        · exact Or.inr
      rw [if_congr this rfl rfl]

/-- C2: when some required document has zero repeat artifacts the candidate
is short-circuited: the result is overall score 0, the full rule count, the
accumulated (non-empty) error list and no failures, and the result does not
depend on the evaluation environment at all (no rule is ever evaluated). -/
theorem candidate_short_circuit (env env2 : Env) (glob : String → List String)
    (folder : String) (rules : List RecordData) (bn : List String)
    (h : ∃ p ∈ bn, glob (pathJoin folder (splitextStem p ++ "_*.md")) = []) :
    evaluate_candidate env glob folder rules bn =
      .ok ⟨0, rules.length, (discoverRepeats glob folder bn).1, [], []⟩ ∧
    (discoverRepeats glob folder bn).1 ≠ [] ∧
    evaluate_candidate env glob folder rules bn = evaluate_candidate env2 glob folder rules bn := by
  have herr : (discoverRepeats glob folder bn).1 ≠ [] := by
    rw [Ne, discover_errs_nil_iff]
    push_neg
    exact h
  have heval : ∀ e : Env, evaluate_candidate e glob folder rules bn =
      .ok ⟨0, rules.length, (discoverRepeats glob folder bn).1, [], []⟩ := by
    intro e
    simp only [evaluate_candidate]
    rw [if_neg herr]
  exact ⟨heval env, herr, (heval env).trans (heval env2).symm⟩

def envC2 : Env :=
  { similarity := fun _ _ => 0,
    find_near_matches := fun _ _ _ => [],
    readFile := fun _ => .ok "t" }

def globC2 : String → List String :=
  fun s => if s = "cand/a_*.md" then ["cand/a_1.md"] else []

def recC2 : RecordData :=
  { pdf := some "a.pdf", id := some "r1", type := some "present", text := some "hello" }

/-- Witness for C2: a candidate with repeats for `a.pdf` but none for
`b.pdf` short-circuits to a zero score over the full rule count. -/
theorem candidate_short_circuit_witness :
    (∃ p ∈ ["a.pdf", "b.pdf"], globC2 (pathJoin "cand" (splitextStem p ++ "_*.md")) = []) ∧
    evaluate_candidate envC2 globC2 "cand" [recC2] ["a.pdf", "b.pdf"] =
      .ok ⟨0, 1, (discoverRepeats globC2 "cand" ["a.pdf", "b.pdf"]).1, [], []⟩ := by
  have hh : ∃ p ∈ ["a.pdf", "b.pdf"], globC2 (pathJoin "cand" (splitextStem p ++ "_*.md")) = [] := by
    refine ⟨"b.pdf", by simp, ?_⟩
    rfl
  exact ⟨hh, (candidate_short_circuit envC2 envC2 globC2 "cand" [recC2] ["a.pdf", "b.pdf"] hh).1⟩

/-- C4: with no structural errors, the overall score is the unweighted mean
over all rules of the per-rule averages (pass count over repeats evaluated),
and 0 when there are no rules; repeats only weight scores within their own
rule. -/
theorem overall_score_unweighted_mean (env : Env) (glob : String → List String)
    (folder : String) (rules : List RecordData) (bn : List String)
    (hglob : ∀ p ∈ bn, glob (pathJoin folder (splitextStem p ++ "_*.md")) ≠ [])
    (hwf : ∀ r ∈ rules, r.type.isSome ∧ r.pdf.isSome) :
    ∃ res, evaluate_candidate env glob folder rules bn = .ok res ∧
      res.total_rules = rules.length ∧
      res.overall_score =
        (if rules = [] then 0
         else (rules.map (avgWith env (mdFilesFor glob folder bn))).sum / (rules.length : ℚ)) := by
  have herrs : (discoverRepeats glob folder bn).1 = [] :=
    (discover_errs_nil_iff glob folder bn).mpr hglob
  obtain ⟨bd', hok⟩ := evalRulesAux_ok env (discoverRepeats glob folder bn).2 rules hwf 0 [] [] []
  have hfun : assocGet (discoverRepeats glob folder bn).2 = mdFilesFor glob folder bn :=
    funext (assocGet_discover glob folder bn hglob)
  rw [hfun] at hok
  refine ⟨⟨if rules = [] then 0
      else (0 + (rules.map (avgWith env (mdFilesFor glob folder bn))).sum) / (rules.length : ℚ),
      rules.length,
      [] ++ (rules.map (errsWith env (mdFilesFor glob folder bn))).flatten,
      [] ++ rules.filterMap (failEntryWith env (mdFilesFor glob folder bn)),
      bd'⟩, ?_, rfl, ?_⟩
  · simp only [evaluate_candidate]
    rw [if_pos herrs, hok]
  · simp

def envC4 : Env :=
  { similarity := fun q c =>
      if q = "t1" then 100 else if q = "t2" then (if c = "good" then 100 else 0) else 0,
    find_near_matches := fun _ _ _ => [],
    readFile := fun s => if s = "cand/a_1.md" then .ok "good" else .ok "bad" }

def globC4 : String → List String :=
  fun s => if s = "cand/a_*.md" then ["cand/a_1.md", "cand/a_2.md"] else []

def rec1C4 : RecordData :=
  { pdf := some "a.pdf", id := some "r1", type := some "present", text := some "t1" }

def rec2C4 : RecordData :=
  { pdf := some "a.pdf", id := some "r2", type := some "present", text := some "t2" }

def rec3C4 : RecordData :=
  { pdf := some "a.pdf", id := some "r3", type := some "present", text := some "t3" }

/-- Witness for C4: three rules with averages 1, 1/2 and 0 over two repeats
give an overall score of 1/2. -/
theorem overall_score_unweighted_mean_witness :
    [rec1C4, rec2C4, rec3C4].map (avgWith envC4 (mdFilesFor globC4 "cand" ["a.pdf"])) =
      [1, 1/2, 0] ∧
    ∃ res, evaluate_candidate envC4 globC4 "cand" [rec1C4, rec2C4, rec3C4] ["a.pdf"] = .ok res ∧
      res.total_rules = 3 ∧ res.overall_score = 1/2 := by
  have hfiles : mdFilesFor globC4 "cand" ["a.pdf"] "a.pdf" = ["cand/a_1.md", "cand/a_2.md"] := rfl
  have hA : ("cand/a_2.md" : String) ≠ "cand/a_1.md" := by decide
  have hB : ("t2" : String) ≠ "t1" := by decide
  have hC : ("t3" : String) ≠ "t1" := by decide
  have hD : ("t3" : String) ≠ "t2" := by decide
  have hE : ("bad" : String) ≠ "good" := by decide
  have hrr11 : run_rule envC4 rec1C4 "cand/a_1.md" = .ok (true, "") := by
    norm_num [run_rule, envC4, rec1C4]
  have hrr12 : run_rule envC4 rec1C4 "cand/a_2.md" = .ok (true, "") := by
    norm_num [run_rule, envC4, rec1C4, hA]
  have hrr21 : run_rule envC4 rec2C4 "cand/a_1.md" = .ok (true, "") := by
    norm_num [run_rule, envC4, rec2C4]
  have hrr22 : run_rule envC4 rec2C4 "cand/a_2.md" =
      .ok (false, presAbsFailMsg "t2" 1 0) := by
    norm_num [run_rule, envC4, rec2C4, hA, hB, hE]
  have hrr31 : run_rule envC4 rec3C4 "cand/a_1.md" =
      .ok (false, presAbsFailMsg "t3" 1 0) := by
    norm_num [run_rule, envC4, rec3C4, hC, hD]
  have hrr32 : run_rule envC4 rec3C4 "cand/a_2.md" =
      .ok (false, presAbsFailMsg "t3" 1 0) := by
    norm_num [run_rule, envC4, rec3C4, hA, hC, hD, hE]
  have hs1 : runRepeats envC4 rec1C4 ["cand/a_1.md", "cand/a_2.md"] = ⟨2, 2, [], []⟩ := by
    simp [runRepeats, hrr11, hrr12]
  have hs2 : runRepeats envC4 rec2C4 ["cand/a_1.md", "cand/a_2.md"] =
      ⟨1, 2, [presAbsFailMsg "t2" 1 0], []⟩ := by
    simp [runRepeats, hrr21, hrr22]
  have hs3 : runRepeats envC4 rec3C4 ["cand/a_1.md", "cand/a_2.md"] =
      ⟨0, 2, [presAbsFailMsg "t3" 1 0, presAbsFailMsg "t3" 1 0], []⟩ := by
    simp [runRepeats, hrr31, hrr32]
  have hp1 : rec1C4.pdf = some "a.pdf" := rfl
  have hp2 : rec2C4.pdf = some "a.pdf" := rfl
  have hp3 : rec3C4.pdf = some "a.pdf" := rfl
  have h1 : avgWith envC4 (mdFilesFor globC4 "cand" ["a.pdf"]) rec1C4 = 1 := by
    simp only [avgWith, hp1, hfiles, hs1]
    norm_num [List.cons_ne_nil]
  have h2 : avgWith envC4 (mdFilesFor globC4 "cand" ["a.pdf"]) rec2C4 = 1/2 := by
    simp only [avgWith, hp2, hfiles, hs2]
    norm_num [List.cons_ne_nil]
  have h3 : avgWith envC4 (mdFilesFor globC4 "cand" ["a.pdf"]) rec3C4 = 0 := by
    simp only [avgWith, hp3, hfiles, hs3]
    norm_num [List.cons_ne_nil]
  have hmap : [rec1C4, rec2C4, rec3C4].map (avgWith envC4 (mdFilesFor globC4 "cand" ["a.pdf"])) =
      [1, 1/2, 0] := by
    simp [h1, h2, h3]
  obtain ⟨res, hres, hlen, hscore⟩ :=
    overall_score_unweighted_mean envC4 globC4 "cand" [rec1C4, rec2C4, rec3C4] ["a.pdf"]
      (by decide) (by decide)
  refine ⟨hmap, res, hres, hlen, ?_⟩
  rw [hscore, if_neg (by simp), hmap]
  norm_num

/-- C7: a repeat whose artifact cannot be read yields a normal
`(False, explanation)` result embedding the read error (no exception); an
exception raised while evaluating one repeat is caught by the aggregator,
recorded as a candidate-level error and as a failure explanation, and
counted as a failed repeat; and the candidate still evaluates to a result
(neither case aborts it). -/
theorem repeat_error_recovery :
    (∀ (env : Env) (rule : RecordData) (p e : String),
      Env.readFile env p = .error e →
      run_rule env rule p = .ok (false, "Error reading " ++ p ++ ": " ++ e)) ∧
    (∀ (env : Env) (rule : RecordData) (p : String) (rest : List String) (e : String),
      run_rule env rule p = .error e →
      runRepeats env rule (p :: rest) =
        ⟨(runRepeats env rule rest).passes,
         (runRepeats env rule rest).repeats + 1,
         e :: (runRepeats env rule rest).explanations,
         runErrMsg rule.id p e :: (runRepeats env rule rest).errors⟩) ∧
    (∀ (env : Env) (glob : String → List String) (folder : String)
       (rules : List RecordData) (bn : List String),
      (∀ r ∈ rules, r.type.isSome ∧ r.pdf.isSome) →
      ∃ res, evaluate_candidate env glob folder rules bn = .ok res) := by
  refine ⟨?_, ?_, ?_⟩
  · intro env rule p e h
    simp [run_rule, h]
  · intro env rule p rest e h
    simp [runRepeats, h]
  · intro env glob folder rules bn hwf
    by_cases herrs : (discoverRepeats glob folder bn).1 = []
    · obtain ⟨bd', hok⟩ := evalRulesAux_ok env (discoverRepeats glob folder bn).2 rules hwf 0 [] [] []
      refine ⟨⟨if rules = [] then 0
          else (0 + (rules.map (avgWith env (assocGet (discoverRepeats glob folder bn).2))).sum) /
            (rules.length : ℚ),
        rules.length,
        [] ++ (rules.map (errsWith env (assocGet (discoverRepeats glob folder bn).2))).flatten,
        [] ++ rules.filterMap (failEntryWith env (assocGet (discoverRepeats glob folder bn).2)),
        bd'⟩, ?_⟩
      simp only [evaluate_candidate]
      rw [if_pos herrs, hok]
    · refine ⟨⟨0, rules.length, (discoverRepeats glob folder bn).1, [], []⟩, ?_⟩
      simp only [evaluate_candidate]
      rw [if_neg herrs]

def envC7 : Env :=
  { similarity := fun _ _ => 0,
    find_near_matches := fun _ _ _ => [],
    readFile := fun s => if s = "bad.md" then .error "boom" else .ok "text" }

def recC7 : RecordData :=
  { pdf := some "a.pdf", id := some "r1", type := some "present" }

/-- Witness for C7: an unreadable artifact gives a failed repeat embedding
the read error, and a rule with a missing `text` key raises a KeyError that
the repeat loop catches and counts. -/
theorem repeat_error_recovery_witness :
    Env.readFile envC7 "bad.md" = .error "boom" ∧
    run_rule envC7 recC7 "bad.md" = .ok (false, "Error reading " ++ "bad.md" ++ ": " ++ "boom") ∧
    run_rule envC7 recC7 "ok.md" = .error keyErrText ∧
    runRepeats envC7 recC7 ["ok.md"] =
      ⟨(runRepeats envC7 recC7 []).passes, (runRepeats envC7 recC7 []).repeats + 1,
       keyErrText :: (runRepeats envC7 recC7 []).explanations,
       runErrMsg recC7.id "ok.md" keyErrText :: (runRepeats envC7 recC7 []).errors⟩ ∧
    (∃ res, evaluate_candidate envC7 (fun _ => ["x.md"]) "cand" [recC7] ["a.pdf"] = .ok res) := by
  have hne : ("ok.md" : String) ≠ "bad.md" := by decide
  have h1 : Env.readFile envC7 "bad.md" = .error "boom" := rfl
  have h3 : run_rule envC7 recC7 "ok.md" = .error keyErrText := by
    simp [run_rule, envC7, recC7, hne]
  exact ⟨h1, repeat_error_recovery.1 envC7 recC7 "bad.md" "boom" h1, h3,
    repeat_error_recovery.2.1 envC7 recC7 "ok.md" [] keyErrText h3,
    repeat_error_recovery.2.2 envC7 (fun _ => ["x.md"]) "cand" [recC7] ["a.pdf"] (by decide)⟩

/-- C9: with no structural errors (and rules referencing known documents,
as load-time validation guarantees), a failure entry is recorded for a rule
iff its average is strictly below 1, the failure list is exactly those
entries in rule order, each entry being the rendered message with the rule
id, the document stem, the 3-decimal average, pass count over repeat count,
and the first failing repeat's explanation. -/
theorem rule_failures_characterization (env : Env) (glob : String → List String)
    (folder : String) (rules : List RecordData) (bn : List String)
    (hglob : ∀ p ∈ bn, glob (pathJoin folder (splitextStem p ++ "_*.md")) ≠ [])
    (hwf : ∀ r ∈ rules, r.type.isSome ∧ r.pdf.isSome)
    (hpdf : ∀ r ∈ rules, ∀ p, r.pdf = some p → p ∈ bn) :
    ∃ res, evaluate_candidate env glob folder rules bn = .ok res ∧
      res.rule_failures = rules.filterMap (failEntryWith env (mdFilesFor glob folder bn)) ∧
      (∀ r ∈ rules,
        (failEntryWith env (mdFilesFor glob folder bn) r).isSome = true ↔
          avgWith env (mdFilesFor glob folder bn) r < 1) ∧
      (∀ r ∈ rules, ∀ p, r.pdf = some p →
        avgWith env (mdFilesFor glob folder bn) r < 1 →
        failEntryWith env (mdFilesFor glob folder bn) r =
          some (ruleFailMsg r.id (splitextStem p)
            (avgWith env (mdFilesFor glob folder bn) r)
            (runRepeats env r (mdFilesFor glob folder bn p)).passes
            (runRepeats env r (mdFilesFor glob folder bn p)).repeats
            (runRepeats env r (mdFilesFor glob folder bn p)).explanations)) ∧
      (∀ rid mb avg ps rs ex, ruleFailMsg rid mb avg ps rs ex =
        "Rule " ++ optDisp rid ++ " on " ++ mb ++ " average pass ratio: " ++ format3 avg ++
        " (" ++ toString ps ++ "/" ++ toString rs ++ " repeats passed). Example explanation: " ++
        ex.headD "No explanation") := by
  have herrs : (discoverRepeats glob folder bn).1 = [] :=
    (discover_errs_nil_iff glob folder bn).mpr hglob
  obtain ⟨bd', hok⟩ := evalRulesAux_ok env (discoverRepeats glob folder bn).2 rules hwf 0 [] [] []
  have hfun : assocGet (discoverRepeats glob folder bn).2 = mdFilesFor glob folder bn :=
    funext (assocGet_discover glob folder bn hglob)
  rw [hfun] at hok
  have hmain : ∀ r ∈ rules, ∀ p, r.pdf = some p → mdFilesFor glob folder bn p ≠ [] := by
    intro r hr p hp
    have hmem := hpdf r hr p hp
    simp only [mdFilesFor, if_pos hmem]
    exact hglob p hmem
  refine ⟨⟨if rules = [] then 0
      else (0 + (rules.map (avgWith env (mdFilesFor glob folder bn))).sum) / (rules.length : ℚ),
      rules.length,
      [] ++ (rules.map (errsWith env (mdFilesFor glob folder bn))).flatten,
      [] ++ rules.filterMap (failEntryWith env (mdFilesFor glob folder bn)),
      bd'⟩, ?_, by simp, ?_, ?_, fun _ _ _ _ _ _ => rfl⟩
  · simp only [evaluate_candidate]
    rw [if_pos herrs, hok]
  · intro r hr
    obtain ⟨p, hp⟩ := Option.isSome_iff_exists.mp (hwf r hr).2
    have hne := hmain r hr p hp
    simp only [failEntryWith, avgWith, hp]
    rw [if_neg hne, if_neg hne]
    by_cases h : (if 0 < (runRepeats env r (mdFilesFor glob folder bn p)).repeats then
        ((runRepeats env r (mdFilesFor glob folder bn p)).passes : ℚ) /
          ((runRepeats env r (mdFilesFor glob folder bn p)).repeats : ℚ) else 0) < 1
    · simp [h]
    · simp [h]
  · intro r hr p hp hlt
    have hne := hmain r hr p hp
    rw [show avgWith env (mdFilesFor glob folder bn) r =
        (if 0 < (runRepeats env r (mdFilesFor glob folder bn p)).repeats then
          ((runRepeats env r (mdFilesFor glob folder bn p)).passes : ℚ) /
            ((runRepeats env r (mdFilesFor glob folder bn p)).repeats : ℚ) else 0) by
      simp only [avgWith, hp]
      rw [if_neg hne]] at hlt ⊢
    simp only [failEntryWith, hp]
    rw [if_neg hne, if_pos hlt]

/-- Witness for C9 at the concrete three-rule candidate: the failure list is
exactly the filter of per-rule entries and an entry for the half-passing
rule exists iff its average is below 1. -/
theorem rule_failures_characterization_witness :
    ∃ res, evaluate_candidate envC4 globC4 "cand" [rec1C4, rec2C4, rec3C4] ["a.pdf"] = .ok res ∧
      res.rule_failures = [rec1C4, rec2C4, rec3C4].filterMap
        (failEntryWith envC4 (mdFilesFor globC4 "cand" ["a.pdf"])) ∧
      ((failEntryWith envC4 (mdFilesFor globC4 "cand" ["a.pdf"]) rec2C4).isSome = true ↔
        avgWith envC4 (mdFilesFor globC4 "cand" ["a.pdf"]) rec2C4 < 1) := by
  obtain ⟨res, h1, h2, h3, _, _⟩ := rule_failures_characterization envC4 globC4 "cand"
    [rec1C4, rec2C4, rec3C4] ["a.pdf"] (by decide) (by decide)
    (by
      intro r hr p hp
      simp only [List.mem_cons, List.not_mem_nil, or_false] at hr
      rcases hr with rfl | rfl | rfl <;>
        (simp only [rec1C4, rec2C4, rec3C4, Option.some.injEq] at hp; subst hp; simp))
  exact ⟨res, h1, h2, h3 rec2C4 (by simp)⟩

/-- The record carried by a line, if any. -/
def lineRecord : Line → Option RecordData
  | .record d => some d
  | _ => none

/-- The rule ids of the records of a line list, in order. -/
def idsOf (ls : List Line) : List String :=
  (ls.filterMap lineRecord).filterMap (fun d => d.id)

/-- The type-specific field checks of §3: `text` for `present`/`absent`,
`before`/`after` of length at least 10 for `order`, no other type. -/
def typeFieldsOK (d : RecordData) (rule_type : String) : Bool :=
  if rule_type = "present" ∨ rule_type = "absent" then d.text.isSome
  else if rule_type = "order" then
    match d.before, d.after with
    | some b, some a => decide (10 ≤ b.length) && decide (10 ≤ a.length)
    | _, _ => false
  else false

/-- All per-record checks except duplicate ids: required keys, pdf
referential integrity, and the type-specific checks. -/
def recordOK (bn : List String) (d : RecordData) : Bool :=
  match d.pdf, d.id, d.type with
  | some pdf, some _, some rule_type => decide (pdf ∈ bn) && typeFieldsOK d rule_type
  | _, _, _ => false

/-- Per-line validity (duplicate ids aside): blank lines pass, malformed
lines fail, records pass iff `recordOK`. -/
def lineOK (bn : List String) : Line → Bool
  | .blank => true
  | .malformed _ => false
  | .record d => recordOK bn d

/-- The id a line contributes to the duplicate check, if any. -/
def lineId (l : Line) : Option String :=
  match lineRecord l with
  | some d => d.id
  | none => none

/-- Whether the ids of the lines are mutually distinct and disjoint from the
already-seen ids. -/
def freshIds (seen : List String) : List Line → Bool
  | [] => true
  | l :: rest =>
    match lineId l with
    | none => freshIds seen rest
    | some i => !(decide (i ∈ seen)) && freshIds (i :: seen) rest

/-- Classification of one validator step: a blank line is skipped, a line
failing `lineOK` (or duplicating a seen id) fails, and otherwise the record
is kept along with its fresh id. -/
lemma lineStep_cases (path : String) (bn : List String) (n : Nat) (seen : List String)
    (l : Line) :
    (l = .blank ∧ lineStep path bn n seen l = .skip) ∨
    (∃ m, lineStep path bn n seen l = .fail m ∧
      (lineOK bn l = false ∨ ∃ d i, l = .record d ∧ d.id = some i ∧ i ∈ seen)) ∨
    (∃ d i, l = .record d ∧ lineStep path bn n seen l = .keep d i ∧
      recordOK bn d = true ∧ d.id = some i ∧ i ∉ seen) := by
  cases l with
  | blank => exact Or.inl ⟨rfl, rfl⟩
  | malformed e => exact Or.inr (Or.inl ⟨_, rfl, Or.inl rfl⟩)
  | record d =>
    rcases hpdf : d.pdf with _ | pdf
    · refine Or.inr (Or.inl ⟨missingReqMsg path n d, ?_, Or.inl ?_⟩)
      · simp [lineStep, hpdf]
      · simp [lineOK, recordOK, hpdf]
    rcases hid : d.id with _ | i
    · refine Or.inr (Or.inl ⟨missingReqMsg path n d, ?_, Or.inl ?_⟩)
      · simp [lineStep, hpdf, hid]
      · simp [lineOK, recordOK, hpdf, hid]
    rcases htype : d.type with _ | rt
    · refine Or.inr (Or.inl ⟨missingReqMsg path n d, ?_, Or.inl ?_⟩)
      · simp [lineStep, hpdf, hid, htype]
      · simp [lineOK, recordOK, hpdf, hid, htype]
    by_cases hdup : i ∈ seen
    · refine Or.inr (Or.inl ⟨dupMsg path i, ?_, Or.inr ⟨d, i, rfl, hid, hdup⟩⟩)
      simp [lineStep, hpdf, hid, htype, hdup]
    by_cases hmem : pdf ∈ bn
    case neg =>
      refine Or.inr (Or.inl ⟨missingPdfMsg pdf i path n, ?_, Or.inl ?_⟩)
      · simp [lineStep, hpdf, hid, htype, hdup, hmem]
      · simp [lineOK, recordOK, hpdf, hid, htype, hmem]
    by_cases hpa : rt = "present" ∨ rt = "absent"
    · rcases htext : d.text with _ | t
      · refine Or.inr (Or.inl ⟨textReqMsg rt path n, ?_, Or.inl ?_⟩)
        · simp [lineStep, hpdf, hid, htype, hdup, hmem, hpa, htext]
        · simp [lineOK, recordOK, typeFieldsOK, hpdf, hid, htype, hpa, htext]
      · refine Or.inr (Or.inr ⟨d, i, rfl, ?_, ?_, hid, hdup⟩)
        · simp [lineStep, hpdf, hid, htype, hdup, hmem, hpa, htext]
        · simp [recordOK, typeFieldsOK, hpdf, hid, htype, hpa, htext, hmem]
    · by_cases hor : rt = "order"
      · rcases hbef : d.before with _ | b
        · refine Or.inr (Or.inl ⟨beforeReqMsg path n, ?_, Or.inl ?_⟩)
          · simp [lineStep, hpdf, hid, htype, hdup, hmem, hpa, hor, hbef]
          · simp [lineOK, recordOK, typeFieldsOK, hpdf, hid, htype, hpa, hor, hbef]
        · by_cases hbl : b.length < 10
          · refine Or.inr (Or.inl ⟨beforeShortMsg path n, ?_, Or.inl ?_⟩)
            · simp [lineStep, hpdf, hid, htype, hdup, hmem, hpa, hor, hbef, hbl]
            · have hble : ¬ (10 ≤ b.length) := by omega
              rcases haft : d.after with _ | a
              · simp [lineOK, recordOK, typeFieldsOK, hpdf, hid, htype, hpa, hor, hbef, haft]
              · simp [lineOK, recordOK, typeFieldsOK, hpdf, hid, htype, hpa, hor, hbef, haft, hble]
          · rcases haft : d.after with _ | a
            · refine Or.inr (Or.inl ⟨afterReqMsg path n, ?_, Or.inl ?_⟩)
              · simp [lineStep, hpdf, hid, htype, hdup, hmem, hpa, hor, hbef, hbl, haft]
              · simp [lineOK, recordOK, typeFieldsOK, hpdf, hid, htype, hpa, hor, hbef, haft]
            · by_cases hal : a.length < 10
              · refine Or.inr (Or.inl ⟨afterShortMsg path n, ?_, Or.inl ?_⟩)
                · simp [lineStep, hpdf, hid, htype, hdup, hmem, hpa, hor, hbef, hbl, haft, hal]
                · have hale : ¬ (10 ≤ a.length) := by omega
                  simp [lineOK, recordOK, typeFieldsOK, hpdf, hid, htype, hpa, hor, hbef, haft, hale]
              · refine Or.inr (Or.inr ⟨d, i, rfl, ?_, ?_, hid, hdup⟩)
                · simp [lineStep, hpdf, hid, htype, hdup, hmem, hpa, hor, hbef, hbl, haft, hal]
                · simp [recordOK, typeFieldsOK, hpdf, hid, htype, hpa, hor, hbef, haft, hmem]
                  omega
      · refine Or.inr (Or.inl ⟨unknownTypeMsg rt path n, ?_, Or.inl ?_⟩)
        · simp [lineStep, hpdf, hid, htype, hdup, hmem, hpa, hor]
        · simp [lineOK, recordOK, typeFieldsOK, hpdf, hid, htype, hpa, hor]

/-- Unfolding of `idsOf` on a cons. -/
lemma idsOf_cons (l : Line) (rest : List Line) :
    idsOf (l :: rest) = (match lineId l with
      | some i => i :: idsOf rest
      | none => idsOf rest) := by
  cases l with
  | blank => simp [idsOf, lineRecord, lineId]
  | malformed e => simp [idsOf, lineRecord, lineId]
  | record d =>
    cases hid : d.id with
    | none => simp [idsOf, lineRecord, lineId, hid]
    | some i => simp [idsOf, lineRecord, lineId, hid]

/-- Traversal: a prefix of valid lines with fresh ids is consumed, advancing
the line number, the seen ids and the accumulated rules. -/
lemma validateAux_append (path : String) (bn : List String) :
    ∀ (pre : List Line), (∀ l ∈ pre, lineOK bn l = true) →
    ∀ (ls : List Line) (n : Nat) (seen : List String) (acc : List RecordData),
      freshIds seen pre = true →
      validateAux path bn n seen acc (pre ++ ls) =
        validateAux path bn (n + pre.length) ((idsOf pre).reverse ++ seen)
          (acc ++ pre.filterMap lineRecord) ls := by
  intro pre
  induction pre with
  | nil =>
    intro _ ls n seen acc _
    simp [idsOf]
  | cons l pre ih =>
    intro hOK ls n seen acc hfresh
    have hl := hOK l (by simp)
    have hpre : ∀ x ∈ pre, lineOK bn x = true := fun x hx => hOK x (by simp [hx])
    rcases lineStep_cases path bn n seen l with ⟨hbl, hstep⟩ | ⟨m, hstep, hbad⟩ |
      ⟨d, i, hrec, hstep, hrOK, hid, hni⟩
    · subst hbl
      have hfresh' : freshIds seen pre = true := by
        simpa [freshIds, lineId, lineRecord] using hfresh
      rw [List.cons_append]
      rw [show validateAux path bn n seen acc (.blank :: (pre ++ ls)) =
          validateAux path bn (n + 1) seen acc (pre ++ ls) by simp [validateAux, hstep]]
      rw [ih hpre ls (n + 1) seen acc hfresh']
      have hn : n + 1 + pre.length = n + (pre.length + 1) := by omega
      simp [idsOf_cons, lineId, lineRecord, hn, List.filterMap_cons]
    · exfalso
      rcases hbad with hbadOK | ⟨d, i, hrec, hid, hdup⟩
      · rw [hl] at hbadOK
        exact Bool.noConfusion hbadOK
      · subst hrec
        have hf := hfresh
        simp only [freshIds, lineId, lineRecord, hid, Bool.and_eq_true, Bool.not_eq_true',
          decide_eq_false_iff_not] at hf
        exact hf.1 hdup
    · subst hrec
      have hfresh' : freshIds (i :: seen) pre = true := by
        have hf := hfresh
        simp only [freshIds, lineId, lineRecord, hid, Bool.and_eq_true, Bool.not_eq_true',
          decide_eq_false_iff_not] at hf
        exact hf.2
      rw [List.cons_append]
      rw [show validateAux path bn n seen acc (.record d :: (pre ++ ls)) =
          validateAux path bn (n + 1) (i :: seen) (acc ++ [d]) (pre ++ ls) by
        simp [validateAux, hstep]]
      rw [ih hpre ls (n + 1) (i :: seen) (acc ++ [d]) hfresh']
      have hn : n + 1 + pre.length = n + (pre.length + 1) := by omega
      simp [idsOf_cons, lineId, lineRecord, hid, hn, List.filterMap_cons,
        List.reverse_cons, List.append_assoc]

/-- Success of the line loop on fully valid input. -/
lemma validateAux_ok_of (path : String) (bn : List String) (lines : List Line)
    (hOK : ∀ l ∈ lines, lineOK bn l = true)
    (n : Nat) (seen : List String) (acc : List RecordData)
    (hfresh : freshIds seen lines = true) :
    validateAux path bn n seen acc lines = .ok (acc ++ lines.filterMap lineRecord) := by
  have h := validateAux_append path bn lines hOK [] n seen acc hfresh
  rw [List.append_nil] at h
  rw [h]
  rfl

/-- Inversion: a successful line loop means every line passed the checks,
the ids were fresh, and the result appends exactly the records in order. -/
lemma validateAux_ok_inv (path : String) (bn : List String) :
    ∀ (lines : List Line) (n : Nat) (seen : List String) (acc : List RecordData)
      (rs : List RecordData),
      validateAux path bn n seen acc lines = .ok rs →
      (∀ l ∈ lines, lineOK bn l = true) ∧ freshIds seen lines = true ∧
        rs = acc ++ lines.filterMap lineRecord := by
  intro lines
  induction lines with
  | nil =>
    intro n seen acc rs h
    simp only [validateAux, Except.ok.injEq] at h
    simp [freshIds, h]
  | cons l rest ih =>
    intro n seen acc rs h
    rcases lineStep_cases path bn n seen l with ⟨hbl, hstep⟩ | ⟨m, hstep, _⟩ |
      ⟨d, i, hrec, hstep, hrOK, hid, hni⟩
    · subst hbl
      rw [show validateAux path bn n seen acc (.blank :: rest) =
          validateAux path bn (n + 1) seen acc rest by simp [validateAux, hstep]] at h
      obtain ⟨h1, h2, h3⟩ := ih (n + 1) seen acc rs h
      refine ⟨?_, ?_, ?_⟩
      · intro x hx
        rcases List.mem_cons.mp hx with rfl | hx
        · rfl
        · exact h1 x hx
      · simpa [freshIds, lineId, lineRecord] using h2
      · simpa [List.filterMap_cons, lineRecord] using h3
    · rw [show validateAux path bn n seen acc (l :: rest) = .error m by
          simp [validateAux, hstep]] at h
      exact absurd h (by simp)
    · subst hrec
      rw [show validateAux path bn n seen acc (.record d :: rest) =
          validateAux path bn (n + 1) (i :: seen) (acc ++ [d]) rest by
        simp [validateAux, hstep]] at h
      obtain ⟨h1, h2, h3⟩ := ih (n + 1) (i :: seen) (acc ++ [d]) rs h
      refine ⟨?_, ?_, ?_⟩
      · intro x hx
        rcases List.mem_cons.mp hx with rfl | hx
        · simpa [lineOK] using hrOK
        · exact h1 x hx
      · simp [freshIds, lineId, lineRecord, hid, hni, h2]
      · simpa [List.filterMap_cons, lineRecord, List.append_assoc] using h3

/-- Ids of lines validated under fresh-id tracking are mutually distinct and
avoid the seen set. -/
lemma freshIds_nodup : ∀ (ls : List Line) (seen : List String),
    freshIds seen ls = true → (idsOf ls).Nodup ∧ ∀ i ∈ idsOf ls, i ∉ seen := by
  intro ls
  induction ls with
  | nil => intro seen _; simp [idsOf]
  | cons l rest ih =>
    intro seen hf
    cases hlid : lineId l with
    | none =>
      have hf' : freshIds seen rest = true := by simpa [freshIds, hlid] using hf
      obtain ⟨h1, h2⟩ := ih seen hf'
      rw [idsOf_cons, hlid]
      exact ⟨h1, h2⟩
    | some i =>
      have hf2 := hf
      simp only [freshIds, hlid, Bool.and_eq_true, Bool.not_eq_true',
        decide_eq_false_iff_not] at hf2
      obtain ⟨hni, hrest⟩ := hf2
      obtain ⟨h1, h2⟩ := ih (i :: seen) hrest
      rw [idsOf_cons, hlid]
      refine ⟨List.nodup_cons.mpr ⟨fun hmem => (h2 i hmem) (by simp), h1⟩, ?_⟩
      intro j hj hjseen
      rcases List.mem_cons.mp hj with rfl | hj'
      · exact hni hjseen
      · exact (h2 j hj') (by simp [hjseen])

/-- A line that fails the per-line checks (and does not duplicate a seen id)
makes the step fail with a message that embeds the line number. -/
lemma lineStep_fail_msg (path : String) (bn : List String) (n : Nat) (seen : List String)
    (l : Line) (hbad : lineOK bn l = false)
    (hfresh : ∀ d i, l = .record d → d.id = some i → i ∉ seen) :
    ∃ m u v, lineStep path bn n seen l = .fail m ∧ m = u ++ toString n ++ v := by
  cases l with
  | blank => exact absurd hbad (by simp [lineOK])
  | malformed e =>
    exact ⟨_, "Invalid JSON on line ", " in " ++ path ++ ": " ++ e, rfl,
      by simp [invalidJsonMsg, String.append_assoc]⟩
  | record d =>
    rcases hpdf : d.pdf with _ | pdf
    · refine ⟨missingReqMsg path n d, "Missing required fields in line ",
        " of " ++ path ++ ": " ++ reprRecord d,
        ?_, by simp [missingReqMsg, String.append_assoc]⟩
      simp [lineStep, hpdf]
    rcases hid : d.id with _ | i
    · refine ⟨missingReqMsg path n d, "Missing required fields in line ",
        " of " ++ path ++ ": " ++ reprRecord d,
        ?_, by simp [missingReqMsg, String.append_assoc]⟩
      simp [lineStep, hpdf, hid]
    rcases htype : d.type with _ | rt
    · refine ⟨missingReqMsg path n d, "Missing required fields in line ",
        " of " ++ path ++ ": " ++ reprRecord d,
        ?_, by simp [missingReqMsg, String.append_assoc]⟩
      simp [lineStep, hpdf, hid, htype]
    have hdup : i ∉ seen := hfresh d i rfl hid
    by_cases hmem : pdf ∈ bn
    case neg =>
      refine ⟨missingPdfMsg pdf i path n,
        "Missing pdf " ++ pdf ++ " referenced by " ++ i ++ " in " ++ path ++ " line ",
        "", ?_, by simp [missingPdfMsg, String.append_assoc, String.append_empty]⟩
      simp [lineStep, hpdf, hid, htype, hdup, hmem]
    by_cases hpa : rt = "present" ∨ rt = "absent"
    · rcases htext : d.text with _ | t
      · refine ⟨textReqMsg rt path n,
            "\x27text\x27 field required for rule type \x27" ++ rt ++ "\x27 in " ++
            path ++ " line ", "", ?_,
            by simp [textReqMsg, String.append_assoc, String.append_empty]⟩
        simp [lineStep, hpdf, hid, htype, hdup, hmem, hpa, htext]
      · exfalso
        have : recordOK bn d = true := by
          simp [recordOK, typeFieldsOK, hpdf, hid, htype, hpa, htext, hmem]
        rw [show lineOK bn (Line.record d) = recordOK bn d from rfl, this] at hbad
        exact Bool.noConfusion hbad
    · by_cases hor : rt = "order"
      · rcases hbef : d.before with _ | b
        · refine ⟨beforeReqMsg path n,
              "\x27before\x27 field required for rule type \x27order\x27 in " ++
              path ++ " line ", "", ?_,
              by simp [beforeReqMsg, String.append_assoc, String.append_empty]⟩
          simp [lineStep, hpdf, hid, htype, hdup, hmem, hpa, hor, hbef]
        · by_cases hbl : b.length < 10
          · refine ⟨beforeShortMsg path n,
              "\x27before\x27 field too short in " ++ path ++ " line ", "", ?_,
              by simp [beforeShortMsg, String.append_assoc, String.append_empty]⟩
            simp [lineStep, hpdf, hid, htype, hdup, hmem, hpa, hor, hbef, hbl]
          · rcases haft : d.after with _ | a
            · refine ⟨afterReqMsg path n,
                  "\x27after\x27 field required for rule type \x27order\x27 in " ++
                  path ++ " line ", "", ?_,
                  by simp [afterReqMsg, String.append_assoc, String.append_empty]⟩
              simp [lineStep, hpdf, hid, htype, hdup, hmem, hpa, hor, hbef, hbl, haft]
            · by_cases hal : a.length < 10
              · refine ⟨afterShortMsg path n,
                  "\x27after\x27 field too short in " ++ path ++ " line ", "", ?_,
                  by simp [afterShortMsg, String.append_assoc, String.append_empty]⟩
                simp [lineStep, hpdf, hid, htype, hdup, hmem, hpa, hor, hbef, hbl, haft, hal]
              · exfalso
                have : recordOK bn d = true := by
                  simp [recordOK, typeFieldsOK, hpdf, hid, htype, hpa, hor, hbef, haft, hmem]
                  omega
                rw [show lineOK bn (Line.record d) = recordOK bn d from rfl, this] at hbad
                exact Bool.noConfusion hbad
      · refine ⟨unknownTypeMsg rt path n,
          "Unknown rule type \x27" ++ rt ++ "\x27 in " ++ path ++ " line ", "", ?_,
          by simp [unknownTypeMsg, String.append_assoc, String.append_empty]⟩
        simp [lineStep, hpdf, hid, htype, hdup, hmem, hpa, hor]

/-- C8: the validator returns exactly one record per non-blank line, in
input-line order, on valid input; a successful load implies every line was
valid; and a first offending line (malformed, missing required keys, bad pdf
reference, unknown type, missing type-specific fields, or an undersized
`before`/`after`) fails the load with a message embedding that line's
1-based number. -/
theorem validator_characterization :
    (∀ (path : String) (pdfs : List String) (lines : List Line),
      (∀ l ∈ lines, lineOK (pdfs.map pyBasename) l = true) →
      freshIds [] lines = true →
      validate_jsonl_file path pdfs lines = .ok (lines.filterMap lineRecord)) ∧
    (∀ (path : String) (pdfs : List String) (lines : List Line) (rs : List RecordData),
      validate_jsonl_file path pdfs lines = .ok rs →
      rs = lines.filterMap lineRecord ∧
        ∀ l ∈ lines, lineOK (pdfs.map pyBasename) l = true) ∧
    (∀ (path : String) (pdfs : List String) (pre : List Line) (l : Line) (post : List Line),
      (∀ x ∈ pre, lineOK (pdfs.map pyBasename) x = true) →
      freshIds [] pre = true →
      lineOK (pdfs.map pyBasename) l = false →
      (∀ d i, l = .record d → d.id = some i → i ∉ idsOf pre) →
      ∃ m u v, validate_jsonl_file path pdfs (pre ++ l :: post) = .error m ∧
        m = u ++ toString (pre.length + 1) ++ v) := by
  refine ⟨?_, ?_, ?_⟩
  · intro path pdfs lines hOK hfresh
    unfold validate_jsonl_file
    rw [validateAux_ok_of path (pdfs.map pyBasename) lines hOK 1 [] [] hfresh]
    simp
  · intro path pdfs lines rs h
    obtain ⟨h1, _, h3⟩ := validateAux_ok_inv path (pdfs.map pyBasename) lines 1 [] [] rs h
    exact ⟨by simpa using h3, h1⟩
  · intro path pdfs pre l post hpre hfresh hbad hfreshl
    have htrav := validateAux_append path (pdfs.map pyBasename) pre hpre (l :: post) 1 [] [] hfresh
    have hfresh2 : ∀ d i, l = .record d → d.id = some i →
        i ∉ ((idsOf pre).reverse ++ ([] : List String)) := by
      intro d i hl hi
      simp only [List.append_nil, List.mem_reverse]
      exact hfreshl d i hl hi
    obtain ⟨m, u, v, hstep, hm⟩ := lineStep_fail_msg path (pdfs.map pyBasename)
      (1 + pre.length) ((idsOf pre).reverse ++ []) l hbad hfresh2
    rw [Nat.add_comm 1 pre.length] at hm
    simp only [List.append_nil] at hstep
    refine ⟨m, u, v, ?_, hm⟩
    unfold validate_jsonl_file
    rw [htrav]
    simp [validateAux, hstep]

def recC8 : RecordData :=
  { pdf := some "doc1.pdf", id := some "r1", type := some "present", text := some "x" }

/-- Witness for C8: a valid one-record file loads to exactly that record,
and a malformed second line fails the load with a message naming line 2. -/
theorem validator_characterization_witness :
    validate_jsonl_file "rules.jsonl" ["doc1.pdf"] [.record recC8] =
      .ok ([Line.record recC8].filterMap lineRecord) ∧
    (∃ m u v, validate_jsonl_file "rules.jsonl" ["doc1.pdf"]
        [.record recC8, .malformed "boom"] = .error m ∧
      m = u ++ toString 2 ++ v) := by
  constructor
  · exact validator_characterization.1 "rules.jsonl" ["doc1.pdf"] [.record recC8]
      (by decide) (by decide)
  · exact validator_characterization.2.2 "rules.jsonl" ["doc1.pdf"] [.record recC8]
      (.malformed "boom") [] (by decide) (by decide) (by decide)
      (by intro d i h; exact absurd h (by simp))

/-- C1 (amended): a duplicate id within one rule file fails that file's load
with an error naming the file, and a successful single-file load yields
pairwise distinct ids; but an id duplicated across two different rule files
in the same run is not detected — both loads succeed and both records enter
the accumulated rule set. -/
theorem duplicate_id_within_file_only :
    (∀ (path : String) (pdfs : List String) (lines : List Line) (rs : List RecordData),
      validate_jsonl_file path pdfs lines = .ok rs →
      (rs.filterMap (fun d => d.id)).Nodup) ∧
    (∀ (path : String) (pdfs : List String) (pre : List Line) (d : RecordData)
       (post : List Line) (i : String),
      (∀ x ∈ pre, lineOK (pdfs.map pyBasename) x = true) →
      freshIds [] pre = true →
      d.pdf.isSome = true → d.type.isSome = true → d.id = some i → i ∈ idsOf pre →
      validate_jsonl_file path pdfs (pre ++ .record d :: post) = .error (dupMsg path i) ∧
      ∃ u v, dupMsg path i = u ++ path ++ v) ∧
    (∀ (pdfs : List String) (f1 f2 : String) (lines1 lines2 : List Line)
       (r1 r2 : List RecordData),
      validate_jsonl_file f1 pdfs lines1 = .ok r1 →
      validate_jsonl_file f2 pdfs lines2 = .ok r2 →
      loadAllRules pdfs [(f1, lines1), (f2, lines2)] = .ok (r1 ++ r2)) := by
  refine ⟨?_, ?_, ?_⟩
  · intro path pdfs lines rs h
    obtain ⟨_, h2, h3⟩ := validateAux_ok_inv path (pdfs.map pyBasename) lines 1 [] [] rs h
    have hnodup := (freshIds_nodup lines [] h2).1
    have : rs.filterMap (fun d => d.id) = idsOf lines := by
      rw [h3]
      simp [idsOf]
    rw [this]
    exact hnodup
  · intro path pdfs pre d post i hpre hfresh hpdf htype hid hdup
    obtain ⟨p, hp⟩ := Option.isSome_iff_exists.mp hpdf
    obtain ⟨rt, hrt⟩ := Option.isSome_iff_exists.mp htype
    have htrav := validateAux_append path (pdfs.map pyBasename) pre hpre
      (.record d :: post) 1 [] [] hfresh
    have hmem : i ∈ (idsOf pre).reverse ++ ([] : List String) := by
      simp [List.mem_reverse, hdup]
    have hstep : lineStep path (pdfs.map pyBasename) (1 + pre.length)
        ((idsOf pre).reverse ++ []) (.record d) = .fail (dupMsg path i) := by
      simp [lineStep, hp, hid, hrt, hmem]
      intro hcontra
      exact absurd hdup hcontra
    constructor
    · unfold validate_jsonl_file
      rw [htrav]
      simp only [List.append_nil] at hstep
      simp [validateAux, hstep]
    · exact ⟨"Duplicate rule " ++ i ++ " in ", "",
        by simp [dupMsg, String.append_assoc, String.append_empty]⟩
  · intro pdfs f1 f2 lines1 lines2 r1 r2 h1 h2
    simp [loadAllRules, h1, h2]

def recC1 : RecordData :=
  { pdf := some "doc1.pdf", id := some "r1", type := some "present", text := some "hello" }

/-- Counterexample to C1 as stated: the same rule id `r1` in two different
rule files of one run does not fail the load; both loads succeed and the
accumulated rule set holds the id twice. -/
theorem duplicate_id_across_files_not_detected :
    loadAllRules ["doc1.pdf"] [("a.jsonl", [.record recC1]), ("b.jsonl", [.record recC1])] =
      .ok [recC1, recC1] ∧ recC1.id = some "r1" := ⟨rfl, rfl⟩

/-- Witness for C1 (amended): two lines of one file sharing id `r1` fail the
load with the duplicate-id error naming the file. -/
theorem duplicate_id_within_file_only_witness :
    validate_jsonl_file "a.jsonl" ["doc1.pdf"] [.record recC1, .record recC1] =
      .error (dupMsg "a.jsonl" "r1") ∧
    ∃ u v, dupMsg "a.jsonl" "r1" = u ++ "a.jsonl" ++ v := by
  have h := (duplicate_id_within_file_only.2.1) "a.jsonl" ["doc1.pdf"] [.record recC1] recC1 []
    "r1" (by decide) (by decide) (by decide) (by decide) rfl (by decide)
  exact h

/-- Replace the `threshold` field of a record. -/
def setThr (t : Option ℚ) (d : RecordData) : RecordData := { d with threshold := t }

/-- Replace the `threshold` field on a record line. -/
def lineSetThr (t : Option ℚ) : Line → Line
  | .record d => .record (setThr t d)
  | l => l

lemma recordOK_setThr (bn : List String) (t : Option ℚ) (d : RecordData) :
    recordOK bn (setThr t d) = recordOK bn d := by
  rcases d with ⟨pdf, rid, ty, tx, bf, af, th⟩
  rfl

lemma lineOK_setThr (bn : List String) (t : Option ℚ) (l : Line) :
    lineOK bn (lineSetThr t l) = lineOK bn l := by
  cases l with
  | blank => rfl
  | malformed e => rfl
  | record d => exact recordOK_setThr bn t d

lemma lineId_setThr (t : Option ℚ) (l : Line) : lineId (lineSetThr t l) = lineId l := by
  cases l with
  | blank => rfl
  | malformed e => rfl
  | record d => rcases d with ⟨pdf, rid, ty, tx, bf, af, th⟩; rfl

lemma freshIds_setThr (t : Option ℚ) : ∀ (ls : List Line) (seen : List String),
    freshIds seen (ls.map (lineSetThr t)) = freshIds seen ls := by
  intro ls
  induction ls with
  | nil => intro seen; rfl
  | cons l rest ih =>
    intro seen
    simp only [List.map_cons, freshIds, lineId_setThr]
    cases lineId l with
    | none => simp [ih seen]
    | some i => simp [ih (i :: seen)]

lemma lineRecord_setThr (t : Option ℚ) (l : Line) :
    lineRecord (lineSetThr t l) = (lineRecord l).map (setThr t) := by
  cases l with
  | blank => rfl
  | malformed e => rfl
  | record d => rfl

lemma filterMap_lineRecord_setThr (t : Option ℚ) : ∀ ls : List Line,
    (ls.map (lineSetThr t)).filterMap lineRecord =
      (ls.filterMap lineRecord).map (setThr t) := by
  intro ls
  induction ls with
  | nil => rfl
  | cons l rest ih =>
    simp only [List.map_cons, List.filterMap_cons, lineRecord_setThr]
    cases lineRecord l with
    | none => exact ih
    | some d => simp [ih]

/-- C10: the validator never inspects `threshold` — any accepted rule file
stays accepted (record for record) when every record's threshold is replaced
by an arbitrary value, absent included, so an out-of-range threshold reaches
evaluation unrejected; the default of 1.0 is applied only when `run_rule`
reads the rule. -/
theorem threshold_not_validated :
    (∀ (path : String) (pdfs : List String) (lines : List Line) (t : Option ℚ)
       (rs : List RecordData),
      validate_jsonl_file path pdfs lines = .ok rs →
      validate_jsonl_file path pdfs (lines.map (lineSetThr t)) = .ok (rs.map (setThr t))) ∧
    (∀ (env : Env) (d : RecordData) (p : String),
      run_rule env (setThr none d) p = run_rule env (setThr (some 1) d) p) := by
  constructor
  · intro path pdfs lines t rs h
    obtain ⟨hOK, hfresh, hrs⟩ := validateAux_ok_inv path (pdfs.map pyBasename) lines 1 [] [] rs h
    have hOK' : ∀ l ∈ lines.map (lineSetThr t), lineOK (pdfs.map pyBasename) l = true := by
      intro l hl
      obtain ⟨x, hx, rfl⟩ := List.mem_map.mp hl
      rw [lineOK_setThr]
      exact hOK x hx
    have hfresh' : freshIds [] (lines.map (lineSetThr t)) = true := by
      rw [freshIds_setThr]
      exact hfresh
    unfold validate_jsonl_file
    rw [validateAux_ok_of path (pdfs.map pyBasename) (lines.map (lineSetThr t)) hOK' 1 [] []
      hfresh']
    rw [filterMap_lineRecord_setThr]
    simp [hrs]
  · intro env d p
    rcases d with ⟨pdf, rid, ty, tx, bf, af, th⟩
    rfl

def envC10 : Env :=
  { similarity := fun _ _ => 50,
    find_near_matches := fun _ _ _ => [],
    readFile := fun _ => .ok "text" }

/-- Witness for C10: a record whose threshold is replaced by the
out-of-range value 3/2 is still accepted by the validator, and `run_rule`
treats an absent threshold exactly as threshold 1. -/
theorem threshold_not_validated_witness :
    validate_jsonl_file "a.jsonl" ["doc1.pdf"]
      ([Line.record recC1].map (lineSetThr (some (3/2)))) =
      .ok ([recC1].map (setThr (some (3/2)))) ∧
    run_rule envC10 (setThr none recC1) "x.md" =
      run_rule envC10 (setThr (some 1) recC1) "x.md" := by
  constructor
  · exact threshold_not_validated.1 "a.jsonl" ["doc1.pdf"] [.record recC1] (some (3/2))
      [recC1] rfl
  · exact threshold_not_validated.2 envC10 recC1 "x.md"
